import Mathlib

/-!
Shallow embedding of the CSP time-frequency decoding step
(`scripts/sensor/_03b_time_frequency_csp.py` of mne-bids-pipeline), together
with theorems checking the module's natural-language specification against
the code.

Numeric score values are modelled as `Option ℚ`: `some q` is an ordinary
(finite) floating-point value, `none` is NaN.  The NumPy semantics the code
relies on are reproduced: `mean`/`min`/`max`/`std`/`quantile` propagate NaN,
`nanmean` ignores NaN entries, and every ordering comparison involving NaN
is false.  Event codes are modelled as `ℤ` (NumPy event ids), sampling
frequencies and scores as `ℚ`.
-/

namespace TimeFreqCsp

/-- A NaN-aware value: `none` is NaN, `some q` a finite value. -/
abbrev Val := Option ℚ

/-- NumPy ordering on possibly-NaN values: any comparison with NaN is false. -/
def valLe : Val → Val → Bool
  | some a, some b => decide (a ≤ b)
  | _, _ => false

/-- `np.mean` of a 1-D array: NaN if the array is empty or contains NaN,
otherwise the arithmetic mean. -/
def npMean (xs : List Val) : Val :=
  if xs.isEmpty ∨ xs.any (·.isNone) then none
  else some ((xs.filterMap id).sum / (xs.length : ℚ))

/-- `np.nanmean` along one slot list: the mean of the non-NaN entries, NaN
when every entry is NaN (NumPy emits a mean-of-empty-slice warning there). -/
def nanmeanCol (xs : List Val) : Val :=
  let vs := xs.filterMap id
  if vs.isEmpty then none else some (vs.sum / (vs.length : ℚ))

/-- Minimum of a nonempty list of rationals, as `np.min` folds it. -/
def listMin : List ℚ → Option ℚ
  | [] => none
  | x :: xs =>
    some (match listMin xs with
      | none => x
      | some m => min x m)

/-- Maximum of a nonempty list of rationals, as `np.max` folds it. -/
def listMax : List ℚ → Option ℚ
  | [] => none
  | x :: xs =>
    some (match listMax xs with
      | none => x
      | some m => max x m)

/-- `np.min` of a 1-D array: NaN-propagating (an empty array is an error in
NumPy; `none` stands for that degenerate case as well). -/
def npMin (xs : List Val) : Val :=
  if xs.any (·.isNone) then none else listMin (xs.filterMap id)

/-- `np.max` of a 1-D array, NaN-propagating. -/
def npMax (xs : List Val) : Val :=
  if xs.any (·.isNone) then none else listMax (xs.filterMap id)

/-! ## Label derivation (`prepare_labels`, source lines 91-130)

`prepare_labels` receives epochs (a trial list, each trial carrying an
integer event code) and a contrast (two condition groups, each matching a
set of event codes through the `event_id` mapping).  It computes the code
sets actually present in each condition group (`epochs[contrast[i]]`) and
rewrites each trial's code to 0 or 1.  On an ambiguous code (present in
both groups) or an unmatched code it calls `logger.critical` and leaves the
raw event code in place: the function is total and never raises. -/

/-- A `logger.critical` record emitted by `prepare_labels`. -/
inductive PartitionLog where
  | ambiguous (code : ℤ)
  | unmatched (code : ℤ)
deriving DecidableEq

/-- The event codes of `epochs[cond]`: the codes present among the trials
that the condition's event-code set matches (source lines 107-110). -/
def conditionCodes (grp events : List ℤ) : List ℤ :=
  events.filter fun c => decide (c ∈ grp)

/-- Embedding of `prepare_labels`: `grp0`/`grp1` are the event-code sets of
the two condition groups of the contrast, `events` the trials' event codes
in order.  Returns the label vector `y` (the mutated copy of the event-code
column) and the critical-log records, in trial order. -/
def prepare_labels (grp0 grp1 events : List ℤ) : List ℤ × List PartitionLog :=
  let s0 := conditionCodes grp0 events
  let s1 := conditionCodes grp1 events
  let step : ℤ → ℤ × List PartitionLog := fun c =>
    if c ∈ s0 ∧ c ∈ s1 then (c, [PartitionLog.ambiguous c])
    else if c ∈ s0 then (0, [])
    else if c ∈ s1 then (1, [])
    else (c, [PartitionLog.unmatched c])
  (events.map fun c => (step c).1, (events.map fun c => (step c).2).flatten)

/-- C1: run `prepare_labels` on a contrast whose condition code sets share
the code 7 (group 0 matches {7}, group 1 matches {7, 8}; trials 7 and 8).
The function returns normally: the offending trial keeps its raw event code
7 as its "label" (not a boolean value, contradicting the function's own
docstring), a single critical-log record is emitted, and no exception of
any kind is raised, so the per-subject task goes on to score these labels.
The spec instead requires a PartitionError that halts the task before any
scoring. -/
theorem C1_partition_overlap_only_logs :
    prepare_labels [7] [7, 8] [7, 8] = ([7, 1], [PartitionLog.ambiguous 7]) := by
  decide

/-- C7 counterexample: with group 0 matching {3, 5} and group 1 matching
{5}, the trial with code 5 is ambiguous, `prepare_labels` leaves its raw
code 5 in the label vector, and so not every derived label is 0 or 1. -/
theorem C7_counterexample :
    (prepare_labels [3, 5] [5] [5, 3]).1 = [5, 0] ∧
      ¬ ∀ l ∈ (prepare_labels [3, 5] [5] [5, 3]).1, l = 0 ∨ l = 1 := by
  decide

/-- C7 (amended): when no trial code lies in both condition groups' sets and
every trial code lies in one of them, `prepare_labels` returns exactly one
label per trial, in the original trial order: 0 for codes of the first
group and 1 for codes of the second, and no critical log is emitted. -/
theorem C7_labels_binary (grp0 grp1 events : List ℤ)
    (hdisj : ∀ c ∈ events, ¬ (c ∈ grp0 ∧ c ∈ grp1))
    (hcover : ∀ c ∈ events, c ∈ grp0 ∨ c ∈ grp1) :
    (prepare_labels grp0 grp1 events).1 =
        events.map (fun c => if c ∈ grp0 then (0 : ℤ) else 1) ∧
      (∀ l ∈ (prepare_labels grp0 grp1 events).1, l = 0 ∨ l = 1) ∧
      (prepare_labels grp0 grp1 events).2 = [] := by
  have hmem : ∀ c ∈ events, ∀ grp : List ℤ, (c ∈ conditionCodes grp events ↔ c ∈ grp) := by
    intro c hc grp
    unfold conditionCodes
    rw [List.mem_filter]
    simp [hc]
  have hcases : ∀ c ∈ events,
      (c ∈ conditionCodes grp0 events ∧ c ∉ conditionCodes grp1 events ∧ c ∈ grp0) ∨
        (c ∉ conditionCodes grp0 events ∧ c ∈ conditionCodes grp1 events ∧ c ∉ grp0) := by
    intro c hc
    rcases hcover c hc with h0 | h1
    · have hn1 : c ∉ grp1 := fun h => hdisj c hc ⟨h0, h⟩
      exact Or.inl ⟨(hmem c hc grp0).2 h0, fun h => hn1 ((hmem c hc grp1).1 h), h0⟩
    · by_cases h0 : c ∈ grp0
      · exact absurd ⟨h0, h1⟩ (hdisj c hc)
      · exact Or.inr ⟨fun h => h0 ((hmem c hc grp0).1 h), (hmem c hc grp1).2 h1, h0⟩
  have h1 : (prepare_labels grp0 grp1 events).1 =
      events.map (fun c => if c ∈ grp0 then (0 : ℤ) else 1) := by
    unfold prepare_labels
    refine List.map_congr_left ?_
    intro c hc
    rcases hcases c hc with ⟨hs0, hs1, hg0⟩ | ⟨hs0, hs1, hg0⟩ <;> simp [hs0, hs1, hg0]
  refine ⟨h1, ?_, ?_⟩
  · intro l hl
    rw [h1] at hl
    rcases List.mem_map.1 hl with ⟨c, _, rfl⟩
    by_cases h : c ∈ grp0 <;> simp [h]
  · unfold prepare_labels
    rw [List.flatten_eq_nil_iff]
    intro l hl
    rcases List.mem_map.1 hl with ⟨c, hc, rfl⟩
    rcases hcases c hc with ⟨hs0, hs1, _⟩ | ⟨hs0, hs1, _⟩ <;> simp [hs0, hs1]

/-- C7 witness: group 0 matches {1, 2}, group 1 matches {3}; trials 1, 3, 2
form a valid partition and get labels 0, 1, 0 in trial order. -/
theorem C7_labels_binary_witness :
    (prepare_labels [1, 2] [3] [1, 3, 2]).1 =
        [1, 3, 2].map (fun c => if c ∈ ([1, 2] : List ℤ) then (0 : ℤ) else 1) ∧
      (∀ l ∈ (prepare_labels [1, 2] [3] [1, 3, 2]).1, l = 0 ∨ l = 1) ∧
      (prepare_labels [1, 2] [3] [1, 3, 2]).2 = [] :=
  C7_labels_binary [1, 2] [3] [1, 3, 2] (by decide) (by decide)

/-! ## Per-subject decoding structure (`one_subject_decoding`, source lines 316-509)

The per-subject task reads the epochs, possibly decimates them once, builds
one PCA object, and then runs the double loop: for every frequency band it
band-filters the full epochs, calls `pca.fit_transform` on the full
(un-cropped) band data and scores it, and for every time window inside the
band it crops the data, calls `pca.transform` (never fit) on the crop,
scores it and fits the CSP for pattern plotting.  `one_subject_ops` records
this control flow as a trace of operations. -/

/-- The data slice an operation acts on: the full (un-cropped) epochs of a
frequency band, or a time-window crop of that band. -/
inductive Slice where
  | full (band : ℕ)
  | cropped (band window : ℕ)
deriving DecidableEq

/-- One operation of the per-subject loop body. -/
inductive Op where
  | decimate (factor : ℤ)
  | pcaFit (s : Slice)
  | pcaTransform (s : Slice)
  | cvScore (s : Slice)
  | cspFit (s : Slice)
deriving DecidableEq

/-- Module-level constant of the source (line 85): PCA is in use. -/
def csp_use_pca : Bool := true

/-- `decimation_needed` (source line 355): `sfreq / (3 * tf.freqs[-1])`,
where `tf.freqs[-1]` is the highest frequency edge of interest. -/
def decimation_needed (sfreq maxFreq : ℚ) : ℚ := sfreq / (3 * maxFreq)

/-- The decimation actually applied (source lines 356-357): the source
tests the un-floored `decimation_needed` against 2 and only then truncates
it with `int(...)` (truncation = floor for the positive values reaching the
branch). `some k` means `epochs.decimate(k)` runs, `none` that it does not. -/
def decimationFactor (sfreq maxFreq : ℚ) (cspQuick : Bool) : Option ℤ :=
  if 2 < decimation_needed sfreq maxFreq ∧ cspQuick then
    some ⌊decimation_needed sfreq maxFreq⌋
  else none

/-- The operations run for one frequency band `f` (source lines 395-472):
`pca.fit_transform` on the full band data, cross-validated scoring of the
full band, then per time window a crop, `pca.transform`, scoring and a CSP
fit. -/
def bandOps (usePca : Bool) (nWin : ℕ) (f : ℕ) : List Op :=
  ((if usePca then [Op.pcaFit (Slice.full f), Op.pcaTransform (Slice.full f)] else [])
      ++ [Op.cvScore (Slice.full f)])
    ++ (List.range nWin).flatMap fun t =>
        (if usePca then [Op.pcaTransform (Slice.cropped f t)] else [])
          ++ [Op.cvScore (Slice.cropped f t), Op.cspFit (Slice.cropped f t)]

/-- The operation trace of `one_subject_decoding`: the decimation decision
(taken once, before the band loop, source lines 353-359) followed by the
double loop over the `nBands` frequency bands and `nWin` time windows. -/
def one_subject_ops (sfreq maxFreq : ℚ) (cspQuick : Bool) (nBands nWin : ℕ) : List Op :=
  (match decimationFactor sfreq maxFreq cspQuick with
    | some k => [Op.decimate k]
    | none => [])
    ++ (List.range nBands).flatMap (bandOps csp_use_pca nWin)

/-- The slices on which the trace fits the PCA basis, in order. -/
def pcaFitSlices (tr : List Op) : List Slice :=
  tr.filterMap fun op =>
    match op with
    | Op.pcaFit s => some s
    | _ => none

/-- Whether an operation fits the PCA basis on a cropped time-window slice. -/
def isCroppedPcaFit : Op → Bool
  | Op.pcaFit (Slice.cropped _ _) => true
  | _ => false

/-- Whether an operation is the decimation step. -/
def isDecimateOp : Op → Bool
  | Op.decimate _ => true
  | _ => false

theorem pcaFitSlices_append (l l' : List Op) :
    pcaFitSlices (l ++ l') = pcaFitSlices l ++ pcaFitSlices l' :=
  List.filterMap_append l l' _

theorem countP_flatMap_zero (p : Op → Bool) (g : ℕ → List Op) (l : List ℕ)
    (h : ∀ t ∈ l, (g t).countP p = 0) : (l.flatMap g).countP p = 0 := by
  rw [List.countP_flatMap]
  refine List.sum_eq_zero ?_
  intro x hx
  rcases List.mem_map.1 hx with ⟨t, ht, rfl⟩
  exact h t ht

theorem pcaFitSlices_bandOps (nWin f : ℕ) :
    pcaFitSlices (bandOps csp_use_pca nWin f) = [Slice.full f] := by
  simp [bandOps, csp_use_pca, pcaFitSlices, List.filterMap_append, List.filterMap_flatMap]

/-- C2 (amended): in every per-subject run, the PCA basis is fitted exactly
once per frequency band — each fit on the full, un-cropped band-filtered
data, in band order — and cropped time-window slices are only ever
transformed, never fitted (there is no PCA fit on any cropped slice).  The
spec's "fitted exactly once per subject" holds only within a band; across
the `nBands` bands of the grid the basis is refitted each time, as the
source's own comment (line 81: one PCA per frequency bin) states. -/
theorem C2_pca_fit_once_per_band (sfreq maxFreq : ℚ) (cspQuick : Bool) (nBands nWin : ℕ) :
    pcaFitSlices (one_subject_ops sfreq maxFreq cspQuick nBands nWin) =
        (List.range nBands).map Slice.full ∧
      (one_subject_ops sfreq maxFreq cspQuick nBands nWin).countP isCroppedPcaFit = 0 := by
  constructor
  · unfold one_subject_ops
    rw [pcaFitSlices_append]
    have hdec : pcaFitSlices
        (match decimationFactor sfreq maxFreq cspQuick with
          | some k => [Op.decimate k]
          | none => []) = [] := by
      cases decimationFactor sfreq maxFreq cspQuick <;> rfl
    rw [hdec, List.nil_append]
    induction nBands with
    | zero => rfl
    | succ n ih =>
      rw [List.range_succ, List.flatMap_append, pcaFitSlices_append, ih,
        List.map_append]
      simp [pcaFitSlices_bandOps]
  · have hband : ∀ f, (bandOps csp_use_pca nWin f).countP isCroppedPcaFit = 0 := by
      intro f
      unfold bandOps csp_use_pca
      rw [List.countP_append]
      rw [countP_flatMap_zero _ _ _ (fun t _ => by rfl)]
      rfl
    unfold one_subject_ops
    rw [List.countP_append]
    have hdec : (match decimationFactor sfreq maxFreq cspQuick with
        | some k => [Op.decimate k]
        | none => []).countP isCroppedPcaFit = 0 := by
      cases decimationFactor sfreq maxFreq cspQuick <;> rfl
    rw [hdec, countP_flatMap_zero _ _ _ (fun f _ => hband f)]

/-- C2 counterexample: a run with two frequency bands (e.g. the frequency
edges 8, 10, 12.5 Hz of the shipped test configuration) fits the PCA basis
twice — once per band — refuting "the basis is fitted exactly once per
subject". -/
theorem C2_counterexample :
    pcaFitSlices (one_subject_ops 250 25 false 2 1) = [Slice.full 0, Slice.full 1] ∧
      ¬ (pcaFitSlices (one_subject_ops 250 25 false 2 1)).length = 1 := by
  have h : pcaFitSlices (one_subject_ops 250 25 false 2 1) = [Slice.full 0, Slice.full 1] := by
    norm_num [one_subject_ops, decimationFactor, decimation_needed, bandOps, csp_use_pca,
      pcaFitSlices, List.filterMap_append, List.filterMap_flatMap, List.range_succ,
      List.filterMap_cons]
  rw [h]
  exact ⟨rfl, by decide⟩

/-- C3 (amended): the decimation factor, when applied, equals
`⌊sfreq / (3 * maxFreq)⌋`, but the guard compares the *un-floored* ratio
`sfreq / (3 * maxFreq)` with 2 (so a ratio in (2, 3) decimates by factor
2); decimation happens at most once per subject, as the very first
operation of the run, before the frequency/time grid loop. -/
theorem C3_decimation_policy (sfreq maxFreq : ℚ) (cspQuick : Bool) (nBands nWin : ℕ) :
    (∀ k, decimationFactor sfreq maxFreq cspQuick = some k →
        k = ⌊sfreq / (3 * maxFreq)⌋ ∧ 2 < sfreq / (3 * maxFreq) ∧ cspQuick = true) ∧
      ((one_subject_ops sfreq maxFreq cspQuick nBands nWin).countP isDecimateOp =
        if 2 < decimation_needed sfreq maxFreq ∧ cspQuick then 1 else 0) ∧
      (∀ k, Op.decimate k ∈ one_subject_ops sfreq maxFreq cspQuick nBands nWin →
        (one_subject_ops sfreq maxFreq cspQuick nBands nWin).head? =
          some (Op.decimate k)) := by
  have hband : ∀ f, (bandOps csp_use_pca nWin f).countP isDecimateOp = 0 := by
    intro f
    unfold bandOps csp_use_pca
    rw [List.countP_append]
    rw [countP_flatMap_zero _ _ _ (fun t _ => by rfl)]
    rfl
  have hnotmem : ∀ k, Op.decimate k ∉ (List.range nBands).flatMap (bandOps csp_use_pca nWin) := by
    intro k hk
    rcases List.mem_flatMap.1 hk with ⟨f, _, hmem⟩
    have hpos : 0 < (bandOps csp_use_pca nWin f).countP isDecimateOp :=
      List.countP_pos_iff.2 ⟨Op.decimate k, hmem, rfl⟩
    rw [hband f] at hpos
    exact absurd hpos (lt_irrefl 0)
  refine ⟨?_, ?_, ?_⟩
  · intro k hk
    unfold decimationFactor at hk
    by_cases h : 2 < decimation_needed sfreq maxFreq ∧ cspQuick
    · rw [if_pos h] at hk
      refine ⟨by injection hk with h'; rw [← h']; rfl, h.1, h.2⟩
    · rw [if_neg h] at hk
      exact absurd hk (by simp)
  · unfold one_subject_ops decimationFactor
    rw [List.countP_append]
    rw [countP_flatMap_zero _ _ _ (fun f _ => hband f)]
    by_cases h : 2 < decimation_needed sfreq maxFreq ∧ cspQuick
    · rw [if_pos h, if_pos h]
      rfl
    · rw [if_neg h, if_neg h]
      rfl
  · intro k hk
    unfold one_subject_ops at hk ⊢
    cases hfac : decimationFactor sfreq maxFreq cspQuick with
    | none =>
      rw [hfac] at hk
      rw [List.nil_append] at hk
      exact absurd hk (hnotmem k)
    | some k' =>
      rw [hfac] at hk
      rcases List.mem_append.1 hk with hk1 | hk2
      · rcases List.mem_singleton.1 hk1 with h
        rw [h]
        rfl
      · exact absurd hk2 (hnotmem k)

/-- C3 counterexample: with a 150 Hz sampling rate and a maximal frequency
of interest of 20 Hz in quick mode, the un-floored ratio is 2.5 > 2, so the
code decimates by `int(2.5) = 2` — although the claim's decimation factor
`⌊150 / (3 * 20)⌋ = 2` is not greater than 2, so by the claim no decimation
should happen. -/
theorem C3_counterexample :
    decimationFactor 150 20 true = some 2 ∧
      ⌊(150 : ℚ) / (3 * 20)⌋ = 2 ∧ ¬ ((2 : ℤ) < 2) := by
  refine ⟨?_, by norm_num, by decide⟩
  unfold decimationFactor decimation_needed
  rw [if_pos (by norm_num)]
  norm_num

/-! ## Bootstrap confidence intervals (`compute_conf_inter`, source lines 643-710)

For each frequency bin the source draws, from a generator seeded with
`cfg.random_state`, `n_boot` resamples (with replacement, each of size
`len(subjects)`) of that bin's subject-axis column, takes each resample's
mean, and stores the standard deviation (ddof = 1) of those bootstrap means
as `mean_se` and their 2.5 % / 97.5 % linear-interpolation percentiles as
the confidence bounds.  The resamples are modelled by the index family
`draws : ℕ → List (List ℕ)` (per bin, `n_boot` rows of drawn subject
indices) that the seeded generator produces. -/

/-- Ascending sort, as `np.quantile` sorts its data. -/
def sortQ (l : List ℚ) : List ℚ := l.insertionSort (· ≤ ·)

/-- Linear interpolation into a sorted list at fractional rank `h`,
NumPy's default `quantile` interpolation:
`a[floor h] + (h - floor h) * (a[floor h + 1] - a[floor h])` with the upper
index clamped to the last element. -/
def interpolate (s : List ℚ) (h : ℚ) : ℚ :=
  let l : ℕ := ⌊h⌋.toNat
  let lo := s.getD l 0
  let hi := s.getD (min (l + 1) (s.length - 1)) 0
  lo + (h - (l : ℚ)) * (hi - lo)

/-- `np.quantile(xs, q)`: NaN when the data is empty or contains NaN,
otherwise linear interpolation at rank `(len - 1) * q` of the sorted data. -/
def npQuantile (xs : List Val) (q : ℚ) : Val :=
  if xs.isEmpty ∨ xs.any (·.isNone) then none
  else some (interpolate (sortQ (xs.filterMap id)) (((xs.length : ℚ) - 1) * q))

/-- The ddof-1 sample variance of a list of rationals. -/
def sampleVar (l : List ℚ) : ℚ :=
  let m := l.sum / (l.length : ℚ)
  (l.map fun x => (x - m) ^ 2).sum / ((l.length : ℚ) - 1)

/-- `np.std(xs, ddof=1)` squared: NaN when fewer than two values (0/0) or
when any value is NaN; the source's `mean_se` is the square root of this. -/
def npVar1 (xs : List Val) : Val :=
  if xs.length ≤ 1 ∨ xs.any (·.isNone) then none
  else some (sampleVar (xs.filterMap id))

/-- One bin's bootstrap distribution of the mean: for every drawn index row,
the `np.mean` of the column values at those indices (source lines 690-693). -/
def bootMeans (col : List Val) (draws : List (List ℕ)) : List Val :=
  draws.map fun idxs => npMean (idxs.map fun i => col.getD i none)

/-- Column `j` of a stacked subjects×bins score array. -/
def column (stack : List (List Val)) (j : ℕ) : List Val :=
  stack.map fun row => row.getD j none

/-- The per-bin statistics record built by `compute_conf_inter` (source
lines 665-704).  `mean_se_sq` holds the ddof-1 variance of the bootstrap
means; the source's `mean_se` is its elementwise square root (see
`meanSe`), an irrational number in general. -/
structure ConfStats where
  mean : List Val
  mean_min : List Val
  mean_max : List Val
  mean_se_sq : List Val
  mean_ci_lower : List Val
  mean_ci_upper : List Val
deriving DecidableEq

/-- Embedding of `compute_conf_inter`: `mean` is the NaN-aware column mean
(line 680), `mean_min`/`mean_max` the NaN-propagating column min/max
(lines 681-682), and per bin `j` the bootstrap-derived standard error and
2.5 %/97.5 % bounds from that bin's own resamples `draws j` (lines 689-702). -/
def compute_conf_inter (meanScores : List (List Val)) (nFreq : ℕ)
    (draws : ℕ → List (List ℕ)) : ConfStats where
  mean := (List.range nFreq).map fun j => nanmeanCol (column meanScores j)
  mean_min := (List.range nFreq).map fun j => npMin (column meanScores j)
  mean_max := (List.range nFreq).map fun j => npMax (column meanScores j)
  mean_se_sq := (List.range nFreq).map fun j =>
    npVar1 (bootMeans (column meanScores j) (draws j))
  mean_ci_lower := (List.range nFreq).map fun j =>
    npQuantile (bootMeans (column meanScores j) (draws j)) (1 / 40)
  mean_ci_upper := (List.range nFreq).map fun j =>
    npQuantile (bootMeans (column meanScores j) (draws j)) (39 / 40)

/-- The source's `mean_se` values: the standard deviation of each bin's
bootstrap means, i.e. the square root of `mean_se_sq`. -/
noncomputable def meanSe (cs : ConfStats) : List (Option ℝ) :=
  cs.mean_se_sq.map fun v =>
    match v with
    | none => none
    | some q => some (Real.sqrt (Rat.cast q))

/-! ## Aggregation (`load_and_average`, source lines 512-566)

For every subject×session pair (in `itertools.product` order) the source
tries to load that pair's persisted score array; a missing file or an array
of unexpected shape is replaced by an all-NaN array of the expected shape
after a warning, and a loaded array containing NaN also draws a warning.
The stack is then either returned whole or reduced with `np.nanmean` along
the leading axis.  The load is modelled generically in the array type `α`. -/

/-- One slot of `load_and_average`: the array stored in the stack for a
subject×session pair, and how many warnings the slot draws.  `none` for
`loaded` is a `FileNotFoundError`. -/
def loadSlot (α : Type) (shapeOk : α → Bool) (hasNaN : α → Bool) (nanFill : α)
    (loaded : Option α) : α × ℕ :=
  match loaded with
  | none => (nanFill, if hasNaN nanFill then 1 else 0)
  | some arr =>
    if shapeOk arr then (arr, if hasNaN arr then 1 else 0)
    else (nanFill, 1 + if hasNaN nanFill then 1 else 0)

/-- `itertools.product(subjects, sessions)` in order. -/
def subjectSessionPairs (subjects sessions : List ℕ) : List (ℕ × ℕ) :=
  subjects.flatMap fun s => sessions.map fun e => (s, e)

/-- Embedding of `load_and_average(average=False)`: the stacked arrays, one
slot per subject×session pair, and the total warning count.  The function
is total: a missing or malformed artifact never aborts the aggregation. -/
def load_and_stack (α : Type) (shapeOk : α → Bool) (hasNaN : α → Bool) (nanFill : α)
    (load : ℕ → ℕ → Option α) (subjects sessions : List ℕ) : List α × ℕ :=
  let slots := (subjectSessionPairs subjects sessions).map fun p =>
    loadSlot α shapeOk hasNaN nanFill (load p.1 p.2)
  (slots.map Prod.fst, (slots.map Prod.snd).sum)

/-- Expected-shape check for a 1-D `freq_scores` artifact. -/
def freqShapeOk (n : ℕ) (arr : List Val) : Bool := decide (arr.length = n)

/-- NaN presence in a 1-D artifact (`np.isnan(arr).any()`). -/
def valHasNaN (arr : List Val) : Bool := arr.any (·.isNone)

/-- The substituted all-NaN 1-D array of the expected shape. -/
def nanFill1 (n : ℕ) : List Val := List.replicate n none

/-- `load_and_average` instantiated at the 1-D `freq_scores` artifacts, as
`group_analysis` calls it with `average=False` (source lines 748-750). -/
def load_and_stack_freq (n : ℕ) (load : ℕ → ℕ → Option (List Val))
    (subjects sessions : List ℕ) : List (List Val) × ℕ :=
  load_and_stack (List Val) (freqShapeOk n) valHasNaN (nanFill1 n) load subjects sessions

/-- `np.nanmean(stack, axis=0)` over a stack of 1-D rows of length `n`. -/
def nanmeanAxis0 (stack : List (List Val)) (n : ℕ) : List Val :=
  (List.range n).map fun j => nanmeanCol (column stack j)

/-- Expected-shape check for a 2-D `tf_scores` artifact
(`list(arr.shape) != shape` against `[n_freq_windows, n_time_windows]`). -/
def tfShapeOk (nf nt : ℕ) (arr : List (List Val)) : Bool :=
  decide (arr.length = nf) && arr.all fun row => decide (row.length = nt)

/-- NaN presence in a 2-D artifact. -/
def tfHasNaN (arr : List (List Val)) : Bool := arr.any fun row => row.any (·.isNone)

/-- The substituted all-NaN 2-D array of the expected shape. -/
def nanFill2 (nf nt : ℕ) : List (List Val) := List.replicate nf (List.replicate nt none)

/-- `load_and_average` instantiated at the 2-D `tf_scores` artifacts
(source lines 770-772 and 787-789). -/
def load_and_stack_tf (nf nt : ℕ) (load : ℕ → ℕ → Option (List (List Val)))
    (subjects sessions : List ℕ) : List (List (List Val)) × ℕ :=
  load_and_stack (List (List Val)) (tfShapeOk nf nt) tfHasNaN (nanFill2 nf nt)
    load subjects sessions

/-- `np.nanmean(stack, axis=0)` over a stack of 2-D arrays. -/
def nanmeanAxis0Tf (stack : List (List (List Val))) (nf nt : ℕ) : List (List Val) :=
  (List.range nf).map fun i => (List.range nt).map fun j =>
    nanmeanCol (stack.map fun arr => (arr.getD i []).getD j none)

/-! ## Cluster permutation statistics (`group_analysis`, source lines 713-858) -/

/-- ROC-AUC chance level (source line 88). -/
def chance : ℚ := 1 / 2

/-- The threshold argument of the permutation test: the t-distribution
quantile `t.ppf(1 - cluster_t_dist_alpha_thres, len(subjects) - 1)` (source
lines 802-803), kept symbolically (its value is irrational). -/
inductive ThresholdSpec where
  | tPpf (q : ℚ) (df : ℕ)
deriving DecidableEq

/-- The `out_type` argument value of the permutation test call. -/
inductive OutKind where
  | mask
deriving DecidableEq

/-- The argument record of the `permutation_cluster_1samp_test` call. -/
structure PermutationCallArgs where
  nJobs : ℕ
  threshold : ThresholdSpec
  adjacency : Option Unit
  nPermutations : ℕ
  outKind : OutKind
  seed : Option ℕ
deriving DecidableEq

/-- The configuration bundle consumed by the group analysis (`get_config`,
source lines 861-888, restricted to the fields the group stage reads). -/
structure GroupCfg where
  nBoot : ℕ
  randomState : ℕ
  clusterStatsAlpha : ℚ
  clusterTDistAlphaThres : ℚ
  nPermutations : ℕ
deriving DecidableEq

/-- The exact arguments the source passes to
`permutation_cluster_1samp_test` (lines 804-808): `n_jobs=1`, the
t-distribution threshold, `adjacency=None` (regular lattice),
`n_permutations=cfg.n_permutations`, `out_type='mask'` — and no `seed`
argument, so the call takes the library default `None` (an unseeded
generator). -/
def permutationCall (cfg : GroupCfg) (nSubjects : ℕ) : PermutationCallArgs where
  nJobs := 1
  threshold := ThresholdSpec.tPpf (1 - cfg.clusterTDistAlphaThres) (nSubjects - 1)
  adjacency := none
  nPermutations := cfg.nPermutations
  outKind := OutKind.mask
  seed := none

/-- The generator seeding of the bootstrap step:
`np.random.default_rng(seed=cfg.random_state)` (source line 687). -/
def bootstrapSeed (cfg : GroupCfg) : Option ℕ := some cfg.randomState

/-- The corrected p-value grid (source lines 814-816): start from all ones,
then for each `(cluster, p)` pair in order assign `p` to the cells of the
cluster's mask.  A cluster mask is its set of member cells. -/
def pClust (clusters : List (List (ℕ × ℕ))) (ps : List ℚ) (cell : ℕ × ℕ) : ℚ :=
  (clusters.zip ps).foldl (fun acc cp => if cell ∈ cp.1 then cp.2 else acc) 1

/-- The significance decision (source lines 821-832): significant unless
there is no cluster or the smallest cluster p-value exceeds
`cluster_stats_alpha`. -/
def significanceDeclared (ps : List ℚ) (alpha : ℚ) : Bool :=
  match listMin ps with
  | none => false
  | some m => ! decide (alpha < m)

/-- Recenter a score by the chance level (source line 790: `X = X - chance`),
NaN-propagating. -/
def subtractChance (x : Val) : Val := x.map fun q => q - chance

/-- What the group analysis produces before handing off to the external
permutation test: the aggregated statistics, the grand-average scores, the
recentered subjects×freq×time cube fed to the test, and the argument record
of that call. -/
structure GroupOutputs where
  aggStats : ConfStats
  freqScoresAvg : List Val
  tfScoresAvg : List (List Val)
  clusterInput : List (List (List Val))
  permArgs : PermutationCallArgs

/-- Embedding of `group_analysis` (source lines 713-858): with fewer than 2
subjects it logs one warning and returns `None` producing nothing (lines
737-740); otherwise it stacks the per-subject `freq_scores`, computes the
bootstrap statistics, stacks and averages the `tf_scores`, recenters the
stacked cube by the chance level and prepares the permutation-test call.
The second component counts the warnings drawn by the artifact loads.  The
function is total: it raises no exception on the early-return path. -/
def group_analysis (subjects sessions : List ℕ) (cfg : GroupCfg)
    (loadFreq : ℕ → ℕ → Option (List Val))
    (loadTf : ℕ → ℕ → Option (List (List Val)))
    (nFreq nTime : ℕ) (draws : ℕ → List (List ℕ)) : Option GroupOutputs × ℕ :=
  if subjects.length < 2 then (none, 1)
  else
    let freqRes := load_and_stack_freq nFreq loadFreq subjects sessions
    let stats := compute_conf_inter freqRes.1 nFreq draws
    let tfRes := load_and_stack_tf nFreq nTime loadTf subjects sessions
    let tfRes2 := load_and_stack_tf nFreq nTime loadTf subjects sessions
    (some
      { aggStats := stats
        freqScoresAvg := nanmeanAxis0 freqRes.1 nFreq
        tfScoresAvg := nanmeanAxis0Tf tfRes.1 nFreq nTime
        clusterInput := tfRes2.1.map fun arr => arr.map fun row => row.map subtractChance
        permArgs := permutationCall cfg subjects.length },
      freqRes.2 + tfRes.2 + tfRes2.2)

/-- C4: the seed plumbing of the group statistics.  The bootstrap generator
is seeded from `cfg.random_state`; the permutation test call sets
`n_jobs=1` but passes no seed argument at all, so it runs with the library
default `None` (an unseeded generator) and its cluster masks and p-values
are not a function of the configured seed. -/
theorem C4_permutation_seed_missing (cfg : GroupCfg) (n : ℕ) :
    (permutationCall cfg n).seed = none ∧
      (permutationCall cfg n).nJobs = 1 ∧
      bootstrapSeed cfg = some cfg.randomState :=
  ⟨rfl, rfl, rfl⟩

/-- C5: the group analysis early-return guard.  When fewer than 2
subject×session combinations exist (and there is at least one session, as
the pipeline guarantees), `group_analysis` returns `None` with a warning
and produces no aggregated statistics and no cluster-test call; and
whenever it does produce output, at least 2 subject×session combinations
were available.  The early return raises no exception: the embedded
function is total. -/
theorem C5_group_guard (subjects sessions : List ℕ) (cfg : GroupCfg)
    (loadFreq : ℕ → ℕ → Option (List Val))
    (loadTf : ℕ → ℕ → Option (List (List Val)))
    (nFreq nTime : ℕ) (draws : ℕ → List (List ℕ))
    (hses : 1 ≤ sessions.length) :
    (subjects.length * sessions.length < 2 →
        (group_analysis subjects sessions cfg loadFreq loadTf nFreq nTime draws).1 = none ∧
          1 ≤ (group_analysis subjects sessions cfg loadFreq loadTf nFreq nTime draws).2) ∧
      ((group_analysis subjects sessions cfg loadFreq loadTf nFreq nTime draws).1 ≠ none →
        2 ≤ subjects.length * sessions.length) := by
  constructor
  · intro hlt
    have hsub : subjects.length < 2 := by
      by_contra h
      push_neg at h
      have h2 : 2 * 1 ≤ subjects.length * sessions.length := Nat.mul_le_mul h hses
      omega
    unfold group_analysis
    rw [if_pos hsub]
    exact ⟨rfl, le_refl 1⟩
  · intro hne
    unfold group_analysis at hne
    by_cases hsub : subjects.length < 2
    · rw [if_pos hsub] at hne
      exact absurd rfl hne
    · push_neg at hsub
      calc (2 : ℕ) = 2 * 1 := by omega
        _ ≤ subjects.length * sessions.length := Nat.mul_le_mul hsub hses

/-- C5 witness: one subject, one session: the guard fires, no output, one
warning; and the output direction holds vacuously. -/
theorem C5_group_guard_witness :
    ((([5] : List ℕ).length * ([0] : List ℕ).length < 2 →
        (group_analysis [5] [0] ⟨100, 42, 1 / 20, 1 / 20, 100⟩ (fun _ _ => none)
            (fun _ _ => none) 1 1 fun _ => []).1 = none ∧
          1 ≤ (group_analysis [5] [0] ⟨100, 42, 1 / 20, 1 / 20, 100⟩ (fun _ _ => none)
            (fun _ _ => none) 1 1 fun _ => []).2) ∧
      ((group_analysis [5] [0] ⟨100, 42, 1 / 20, 1 / 20, 100⟩ (fun _ _ => none)
            (fun _ _ => none) 1 1 fun _ => []).1 ≠ none →
        2 ≤ ([5] : List ℕ).length * ([0] : List ℕ).length)) :=
  C5_group_guard [5] [0] ⟨100, 42, 1 / 20, 1 / 20, 100⟩ (fun _ _ => none)
    (fun _ _ => none) 1 1 (fun _ => []) (by decide)

/-! ## Theorems about the cluster p-value grid and significance (C9) -/

theorem pClust_foldl_notmem (cps : List (List (ℕ × ℕ) × ℚ)) (cell : ℕ × ℕ) (b : ℚ)
    (h : ∀ cp ∈ cps, cell ∉ cp.1) :
    cps.foldl (fun acc cp => if cell ∈ cp.1 then cp.2 else acc) b = b := by
  induction cps generalizing b with
  | nil => rfl
  | cons cp rest ih =>
    rw [List.foldl_cons, if_neg (h cp (List.mem_cons_self cp rest))]
    exact ih b fun x hx => h x (List.mem_cons_of_mem cp hx)

theorem listMin_eq_none_iff (l : List ℚ) : listMin l = none ↔ l = [] := by
  cases l <;> simp [listMin]

theorem listMin_le_iff (ps : List ℚ) (m a : ℚ) (h : listMin ps = some m) :
    (m ≤ a ↔ ∃ p ∈ ps, p ≤ a) := by
  induction ps generalizing m with
  | nil => simp [listMin] at h
  | cons x xs ih =>
    unfold listMin at h
    cases hm : listMin xs with
    | none =>
      rw [hm] at h
      injection h with h'
      rw [listMin_eq_none_iff] at hm
      subst hm
      simp [← h']
    | some m' =>
      rw [hm] at h
      injection h with h'
      subst h'
      rw [min_le_iff]
      constructor
      · intro hle
        rcases hle with hx | hm'
        · exact ⟨x, List.mem_cons_self x xs, hx⟩
        · rcases (ih m' hm).1 hm' with ⟨p, hp, hpa⟩
          exact ⟨p, List.mem_cons_of_mem x hp, hpa⟩
      · rintro ⟨p, hp, hpa⟩
        rcases List.mem_cons.1 hp with rfl | hp'
        · exact Or.inl hpa
        · exact Or.inr ((ih m' hm).2 ⟨p, hp', hpa⟩)

/-- C9: after the permutation test, each cell inside a cluster's mask
carries that cluster's p-value, every other cell carries 1.0 (clusters from
the test have pairwise disjoint masks), and significance is declared
exactly when some cluster's p-value is at most the configured
cluster-test alpha. -/
theorem C9_cluster_pvalue_grid (clusters : List (List (ℕ × ℕ))) (ps : List ℚ)
    (alpha : ℚ) (hlen : clusters.length = ps.length)
    (hdisj : List.Pairwise (fun a b => ∀ c ∈ a, c ∉ b) clusters) :
    (∀ i cell, i < clusters.length → cell ∈ clusters.getD i [] →
        pClust clusters ps cell = ps.getD i 1) ∧
      (∀ cell, (∀ cl ∈ clusters, cell ∉ cl) → pClust clusters ps cell = 1) ∧
      (significanceDeclared ps alpha = true ↔ ∃ p ∈ ps, p ≤ alpha) := by
  refine ⟨?_, ?_, ?_⟩
  · intro i cell
    induction clusters generalizing ps i with
    | nil => intro hi _; exact absurd hi (by simp)
    | cons cl rest ih =>
      intro hi hcell
      cases ps with
      | nil => simp at hlen
      | cons q qs =>
        cases i with
        | zero =>
          rw [List.getD_cons_zero] at hcell ⊢
          unfold pClust
          rw [List.zip_cons_cons, List.foldl_cons, if_pos hcell]
          refine pClust_foldl_notmem _ _ _ ?_
          intro cp hcp hmem
          have hcl : cp.1 ∈ rest := (List.of_mem_zip hcp).1
          exact (List.pairwise_cons.1 hdisj).1 cp.1 hcl cell hcell hmem
        | succ i' =>
          rw [List.getD_cons_succ] at hcell ⊢
          have hrestlen : i' < rest.length := by
            simp at hi
            omega
          have hcl : cell ∉ cl := by
            intro hmem
            have hmem' : rest.getD i' [] ∈ rest := by
              rw [List.getD_eq_getElem _ _ hrestlen]
              exact List.getElem_mem hrestlen
            exact (List.pairwise_cons.1 hdisj).1 _ hmem' cell hmem hcell
          unfold pClust
          rw [List.zip_cons_cons, List.foldl_cons, if_neg hcl]
          exact ih qs (by simpa using hlen) (List.pairwise_cons.1 hdisj).2 i'
            hrestlen hcell
  · intro cell hcell
    refine pClust_foldl_notmem _ _ _ ?_
    intro cp hcp
    exact hcell cp.1 (List.of_mem_zip hcp).1
  · unfold significanceDeclared
    cases hm : listMin ps with
    | none =>
      rw [listMin_eq_none_iff] at hm
      subst hm
      simp
    | some m =>
      simp only [Bool.not_eq_true']
      rw [decide_eq_false_iff_not, not_lt]
      exact listMin_le_iff ps m alpha hm

/-- C9 witness: two disjoint clusters with p-values 1/100 and 1/2 on a 2×2
grid and alpha 1/20: each mask cell carries its cluster's p-value, other
cells carry 1, and significance is declared since 1/100 ≤ 1/20. -/
theorem C9_cluster_pvalue_grid_witness :
    ((∀ i cell, i < ([[(0, 0), (0, 1)], [(1, 1)]] : List (List (ℕ × ℕ))).length →
        cell ∈ ([[(0, 0), (0, 1)], [(1, 1)]] : List (List (ℕ × ℕ))).getD i [] →
        pClust [[(0, 0), (0, 1)], [(1, 1)]] [1 / 100, 1 / 2] cell =
          ([1 / 100, 1 / 2] : List ℚ).getD i 1) ∧
      (∀ cell, (∀ cl ∈ ([[(0, 0), (0, 1)], [(1, 1)]] : List (List (ℕ × ℕ))), cell ∉ cl) →
        pClust [[(0, 0), (0, 1)], [(1, 1)]] [1 / 100, 1 / 2] cell = 1) ∧
      (significanceDeclared [1 / 100, 1 / 2] (1 / 20) = true ↔
        ∃ p ∈ ([1 / 100, 1 / 2] : List ℚ), p ≤ 1 / 20)) :=
  C9_cluster_pvalue_grid [[(0, 0), (0, 1)], [(1, 1)]] [1 / 100, 1 / 2] (1 / 20)
    (by decide) (by decide)

/-! ## Theorems about aggregation statistics (C10, C6) -/

theorem getD_map_range {α : Type} (n : ℕ) (f : ℕ → α) (j : ℕ) (hj : j < n) (d : α) :
    ((List.range n).map f).getD j d = f j := by
  have hj' : j < ((List.range n).map f).length := by simpa using hj
  rw [List.getD_eq_getElem _ _ hj', List.getElem_map, List.getElem_range]

/-- C10: in the aggregated statistics the per-bin mean is NaN-aware while
the per-bin minimum and maximum are not: a bin whose subject column holds
at least one NaN and at least one finite value gets `mean_min = mean_max =
NaN` while `mean` is the finite mean of the non-NaN values. -/
theorem C10_min_max_not_nan_aware (meanScores : List (List Val)) (nFreq : ℕ)
    (draws : ℕ → List (List ℕ)) (j : ℕ) (hj : j < nFreq)
    (hnan : none ∈ column meanScores j)
    (hfin : ∃ v : ℚ, some v ∈ column meanScores j) :
    (compute_conf_inter meanScores nFreq draws).mean_min.getD j (some 0) = none ∧
      (compute_conf_inter meanScores nFreq draws).mean_max.getD j (some 0) = none ∧
      (compute_conf_inter meanScores nFreq draws).mean.getD j none =
        some (((column meanScores j).filterMap id).sum /
          ((((column meanScores j).filterMap id).length : ℚ))) := by
  have hany : (column meanScores j).any (·.isNone) = true := by
    rw [List.any_eq_true]
    exact ⟨none, hnan, rfl⟩
  have hne : ((column meanScores j).filterMap id).isEmpty = false := by
    rcases hfin with ⟨v, hv⟩
    have : v ∈ (column meanScores j).filterMap id :=
      List.mem_filterMap.2 ⟨some v, hv, rfl⟩
    cases hfm : (column meanScores j).filterMap id with
    | nil => rw [hfm] at this; exact absurd this (List.not_mem_nil v)
    | cons a l => rfl
  refine ⟨?_, ?_, ?_⟩
  · show ((List.range nFreq).map fun j => npMin (column meanScores j)).getD j (some 0) = none
    rw [getD_map_range nFreq _ j hj]
    unfold npMin
    rw [if_pos hany]
  · show ((List.range nFreq).map fun j => npMax (column meanScores j)).getD j (some 0) = none
    rw [getD_map_range nFreq _ j hj]
    unfold npMax
    rw [if_pos hany]
  · show ((List.range nFreq).map fun j => nanmeanCol (column meanScores j)).getD j none =
      some (((column meanScores j).filterMap id).sum /
        ((((column meanScores j).filterMap id).length : ℚ)))
    rw [getD_map_range nFreq _ j hj]
    simp only [nanmeanCol, hne]
    rfl

/-- C10 witness: two subjects, one bin; the first subject's score is NaN.
The bin's min and max are NaN, its mean is the other subject's value. -/
theorem C10_min_max_not_nan_aware_witness :
    (compute_conf_inter [[none], [some 2]] 1 fun _ => []).mean_min.getD 0 (some 0) = none ∧
      (compute_conf_inter [[none], [some 2]] 1 fun _ => []).mean_max.getD 0 (some 0) = none ∧
      (compute_conf_inter [[none], [some 2]] 1 fun _ => []).mean.getD 0 none =
        some (((column [[none], [some 2]] 0).filterMap id).sum /
          ((((column [[none], [some 2]] 0).filterMap id).length : ℚ))) :=
  C10_min_max_not_nan_aware [[none], [some 2]] 1 (fun _ => []) 0 (by decide)
    (by decide) ⟨2, by decide⟩

theorem filterMap_id_eraseIdx_none (l : List Val) (i : ℕ)
    (h : l.getD i (some 0) = none) :
    l.filterMap id = (l.eraseIdx i).filterMap id := by
  induction l generalizing i with
  | nil => simp
  | cons x xs ih =>
    cases i with
    | zero =>
      rw [List.getD_cons_zero] at h
      subst h
      simp
    | succ i' =>
      rw [List.getD_cons_succ] at h
      rw [List.eraseIdx_cons_succ]
      cases x with
      | none => simp [List.filterMap_cons, ih i' h]
      | some v => simp [List.filterMap_cons, ih i' h]

theorem column_eraseIdx (stack : List (List Val)) (i j : ℕ) :
    column (stack.eraseIdx i) j = (column stack j).eraseIdx i := by
  induction stack generalizing i with
  | nil => simp [column]
  | cons r rs ih =>
    cases i with
    | zero => simp [column]
    | succ i' =>
      rw [List.eraseIdx_cons_succ]
      show (r.getD j none) :: column (rs.eraseIdx i') j =
        ((r.getD j none) :: column rs j).eraseIdx (i' + 1)
      rw [List.eraseIdx_cons_succ, ih i']

/-- Removing a row that is NaN at every bin does not change the NaN-aware
column means. -/
theorem nanmeanAxis0_eraseIdx_nan_row (stack : List (List Val)) (n i : ℕ)
    (hrow : ∀ j, j < n → (column stack j).getD i (some 0) = none) :
    nanmeanAxis0 stack n = nanmeanAxis0 (stack.eraseIdx i) n := by
  unfold nanmeanAxis0
  refine List.map_congr_left ?_
  intro j hj
  rw [List.mem_range] at hj
  unfold nanmeanCol
  rw [column_eraseIdx, ← filterMap_id_eraseIdx_none _ i (hrow j hj)]

theorem getD_replicate_none (n j : ℕ) : (List.replicate n (none : Val)).getD j none = none := by
  induction n generalizing j with
  | zero => rfl
  | succ m ih =>
    cases j with
    | zero => rfl
    | succ j' => exact ih j'

/-- C6: during aggregation, a subject×session slot whose artifact is absent
(`FileNotFoundError`) or has an unexpected shape is replaced by an all-NaN
array of the expected shape, draws at least one warning, and — the stacking
and the substitution being total functions — never aborts; and the
substituted all-NaN row does not alter the NaN-aware mean over the
remaining slots. -/
theorem C6_nan_substitution (n : ℕ) (load : ℕ → ℕ → Option (List Val))
    (subjects sessions : List ℕ) (i s e : ℕ) (hn : 0 < n)
    (hi : i < (subjectSessionPairs subjects sessions).length)
    (hp : (subjectSessionPairs subjects sessions).getD i (0, 0) = (s, e))
    (hbad : load s e = none ∨ ∃ arr, load s e = some arr ∧ arr.length ≠ n) :
    (load_and_stack_freq n load subjects sessions).1.getD i [] = nanFill1 n ∧
      1 ≤ (load_and_stack_freq n load subjects sessions).2 ∧
      nanmeanAxis0 (load_and_stack_freq n load subjects sessions).1 n =
        nanmeanAxis0 ((load_and_stack_freq n load subjects sessions).1.eraseIdx i) n := by
  have hfill : (loadSlot (List Val) (freqShapeOk n) valHasNaN (nanFill1 n) (load s e)).1
      = nanFill1 n := by
    rcases hbad with h | ⟨arr, harr, hlen⟩
    · rw [h]
      rfl
    · rw [harr]
      simp [loadSlot, freqShapeOk, hlen]
  have hnanfill : valHasNaN (nanFill1 n) = true := by
    cases n with
    | zero => omega
    | succ m => rfl
  have hwarn : 1 ≤ (loadSlot (List Val) (freqShapeOk n) valHasNaN (nanFill1 n) (load s e)).2 := by
    rcases hbad with h | ⟨arr, harr, hlen⟩
    · rw [h]
      simp [loadSlot, hnanfill]
    · rw [harr]
      simp [loadSlot, freqShapeOk, hlen]
  have hstack1 : (load_and_stack_freq n load subjects sessions).1 =
      (subjectSessionPairs subjects sessions).map fun p =>
        (loadSlot (List Val) (freqShapeOk n) valHasNaN (nanFill1 n) (load p.1 p.2)).1 := by
    simp [load_and_stack_freq, load_and_stack, List.map_map, Function.comp]
  have hstack2 : (load_and_stack_freq n load subjects sessions).2 =
      ((subjectSessionPairs subjects sessions).map fun p =>
        (loadSlot (List Val) (freqShapeOk n) valHasNaN (nanFill1 n) (load p.1 p.2)).2).sum := by
    simp only [load_and_stack_freq, load_and_stack, List.map_map]
    rfl
  have hpe : (subjectSessionPairs subjects sessions)[i] = (s, e) := by
    rw [← List.getD_eq_getElem _ (0, 0) hi]
    exact hp
  have hlen1 : i < ((load_and_stack_freq n load subjects sessions).1).length := by
    rw [hstack1]
    simpa using hi
  have hrow : (load_and_stack_freq n load subjects sessions).1.getD i [] = nanFill1 n := by
    rw [hstack1]
    rw [List.getD_eq_getElem _ _ (by simpa using hi), List.getElem_map, hpe]
    exact hfill
  refine ⟨hrow, ?_, ?_⟩
  · rw [hstack2]
    have hmem : (loadSlot (List Val) (freqShapeOk n) valHasNaN (nanFill1 n) (load s e)).2 ∈
        ((subjectSessionPairs subjects sessions).map fun p =>
          (loadSlot (List Val) (freqShapeOk n) valHasNaN (nanFill1 n) (load p.1 p.2)).2) := by
      refine List.mem_map.2 ⟨(s, e), ?_, rfl⟩
      rw [← hpe]
      exact List.getElem_mem hi
    calc (1 : ℕ) ≤ (loadSlot (List Val) (freqShapeOk n) valHasNaN (nanFill1 n) (load s e)).2 :=
        hwarn
      _ ≤ _ := List.single_le_sum (fun x _ => Nat.zero_le x) _ hmem
  · refine nanmeanAxis0_eraseIdx_nan_row _ n i ?_
    intro j hj
    have hi' : i < (column (load_and_stack_freq n load subjects sessions).1 j).length := by
      unfold column
      simpa using hlen1
    rw [List.getD_eq_getElem _ _ hi']
    unfold column
    rw [List.getElem_map]
    have hrowi : ((load_and_stack_freq n load subjects sessions).1)[i] = nanFill1 n := by
      rw [← List.getD_eq_getElem _ [] hlen1]
      exact hrow
    rw [hrowi]
    exact getD_replicate_none n j

/-- C6 witness: subjects 0 and 1, one session, one frequency bin; subject
0's artifact is missing, subject 1's is `[1.0]`.  Slot 0 is substituted by
`[NaN]`, a warning is drawn, and the NaN-aware mean equals the mean without
slot 0. -/
theorem C6_nan_substitution_witness :
    (load_and_stack_freq 1 (fun s _ => if s = 0 then none else some [some 1])
        [0, 1] [0]).1.getD 0 [] = nanFill1 1 ∧
      1 ≤ (load_and_stack_freq 1 (fun s _ => if s = 0 then none else some [some 1])
        [0, 1] [0]).2 ∧
      nanmeanAxis0 (load_and_stack_freq 1 (fun s _ => if s = 0 then none else some [some 1])
          [0, 1] [0]).1 1 =
        nanmeanAxis0 ((load_and_stack_freq 1 (fun s _ => if s = 0 then none else some [some 1])
          [0, 1] [0]).1.eraseIdx 0) 1 :=
  C6_nan_substitution 1 (fun s _ => if s = 0 then none else some [some 1]) [0, 1] [0]
    0 0 0 (by decide) (by decide) (by decide) (Or.inl (by decide))

/-! ## Theorems about the bootstrap confidence intervals (C8) -/

theorem interpolate_def (s : List ℚ) (h : ℚ) :
    interpolate s h = s.getD ⌊h⌋.toNat 0 +
      (h - ((⌊h⌋.toNat : ℕ) : ℚ)) *
        (s.getD (min (⌊h⌋.toNat + 1) (s.length - 1)) 0 - s.getD ⌊h⌋.toNat 0) := rfl

theorem sorted_getD_le (s : List ℚ) (hs : List.Sorted (· ≤ ·) s) (i j : ℕ)
    (hij : i ≤ j) (hj : j < s.length) : s.getD i 0 ≤ s.getD j 0 := by
  have hi : i < s.length := lt_of_le_of_lt hij hj
  rw [List.getD_eq_getElem _ _ hi, List.getD_eq_getElem _ _ hj]
  rw [← List.get_eq_getElem s ⟨i, hi⟩, ← List.get_eq_getElem s ⟨j, hj⟩]
  exact hs.rel_get_of_le (Fin.mk_le_mk.2 hij)

theorem floor_rank_facts (h : ℚ) (n : ℕ) (h0 : 0 ≤ h) (hn : 1 ≤ n)
    (hup : h ≤ (n : ℚ) - 1) :
    ((⌊h⌋.toNat : ℚ) ≤ h ∧ h < (⌊h⌋.toNat : ℚ) + 1 ∧ ⌊h⌋.toNat ≤ n - 1) := by
  have hfl0 : 0 ≤ ⌊h⌋ := Int.floor_nonneg.2 h0
  have hcast : ((⌊h⌋.toNat : ℕ) : ℚ) = ((⌊h⌋ : ℤ) : ℚ) := by
    exact_mod_cast congrArg (fun z : ℤ => (z : ℚ)) (Int.toNat_of_nonneg hfl0)
  refine ⟨?_, ?_, ?_⟩
  · rw [hcast]
    exact Int.floor_le h
  · rw [hcast]
    exact Int.lt_floor_add_one h
  · have hsub : ((n - 1 : ℕ) : ℚ) = (n : ℚ) - 1 := by
      push_cast [Nat.cast_sub hn]
      ring
    have hq : ((⌊h⌋ : ℤ) : ℚ) ≤ ((n - 1 : ℕ) : ℚ) := by
      rw [hsub]
      exact le_trans (Int.floor_le h) hup
    have hz : ⌊h⌋ ≤ ((n - 1 : ℕ) : ℤ) := by exact_mod_cast hq
    exact Int.toNat_le.2 hz

/-- The interpolated value at rank `h` lies between its two bracketing
sorted entries. -/
theorem interpolate_between (s : List ℚ) (hs : List.Sorted (· ≤ ·) s)
    (h : ℚ) (h0 : 0 ≤ h) (hn : 1 ≤ s.length) (hup : h ≤ (s.length : ℚ) - 1) :
    s.getD ⌊h⌋.toNat 0 ≤ interpolate s h ∧
      interpolate s h ≤ s.getD (min (⌊h⌋.toNat + 1) (s.length - 1)) 0 := by
  obtain ⟨hlow, hhigh, hl⟩ := floor_rank_facts h s.length h0 hn hup
  have hminlt : min (⌊h⌋.toNat + 1) (s.length - 1) < s.length := by
    have : s.length - 1 < s.length := by omega
    exact lt_of_le_of_lt (min_le_right _ _) this
  have hlohi : s.getD ⌊h⌋.toNat 0 ≤ s.getD (min (⌊h⌋.toNat + 1) (s.length - 1)) 0 := by
    refine sorted_getD_le s hs _ _ ?_ hminlt
    exact le_min (Nat.le_succ _) hl
  rw [interpolate_def]
  constructor
  · nlinarith [sub_nonneg.2 hlow, sub_nonneg.2 hlohi]
  · nlinarith [sub_nonneg.2 hlow, sub_nonneg.2 hlohi, sub_nonneg.2 (le_of_lt hhigh)]

/-- Linear-interpolation quantile extraction is monotone in the rank on a
sorted list. -/
theorem interpolate_mono (s : List ℚ) (hs : List.Sorted (· ≤ ·) s)
    (h1 h2 : ℚ) (h0 : 0 ≤ h1) (h12 : h1 ≤ h2) (hn : 1 ≤ s.length)
    (hup : h2 ≤ (s.length : ℚ) - 1) :
    interpolate s h1 ≤ interpolate s h2 := by
  have h02 : 0 ≤ h2 := le_trans h0 h12
  have hup1 : h1 ≤ (s.length : ℚ) - 1 := le_trans h12 hup
  obtain ⟨hlow1, hhigh1, hl1⟩ := floor_rank_facts h1 s.length h0 hn hup1
  obtain ⟨hlow2, hhigh2, hl2⟩ := floor_rank_facts h2 s.length h02 hn hup
  have hfloor_le : ⌊h1⌋.toNat ≤ ⌊h2⌋.toNat :=
    Int.toNat_le_toNat (Int.floor_le_floor h12)
  rcases Nat.lt_or_ge ⌊h1⌋.toNat ⌊h2⌋.toNat with hlt | hge
  · have hub1 := (interpolate_between s hs h1 h0 hn hup1).2
    have hlb2 := (interpolate_between s hs h2 h02 hn hup).1
    have hmid : s.getD (min (⌊h1⌋.toNat + 1) (s.length - 1)) 0 ≤ s.getD ⌊h2⌋.toNat 0 := by
      refine sorted_getD_le s hs _ _ ?_ ?_
      · exact le_trans (min_le_left _ _) hlt
      · omega
    exact le_trans hub1 (le_trans hmid hlb2)
  · have heq : ⌊h1⌋.toNat = ⌊h2⌋.toNat := le_antisymm hfloor_le hge
    rw [interpolate_def, interpolate_def, heq]
    have hlohi : s.getD ⌊h2⌋.toNat 0 ≤ s.getD (min (⌊h2⌋.toNat + 1) (s.length - 1)) 0 := by
      refine sorted_getD_le s hs _ _ (le_min (Nat.le_succ _) hl2) ?_
      have : s.length - 1 < s.length := by omega
      exact lt_of_le_of_lt (min_le_right _ _) this
    have hd : 0 ≤ s.getD (min (⌊h2⌋.toNat + 1) (s.length - 1)) 0 - s.getD ⌊h2⌋.toNat 0 :=
      sub_nonneg.2 hlohi
    nlinarith [hd, h12]

theorem filterMap_id_length_of_isSome (xs : List Val)
    (h : ∀ v ∈ xs, v.isSome) : (xs.filterMap id).length = xs.length := by
  induction xs with
  | nil => rfl
  | cons x l ih =>
    cases x with
    | none => exact absurd (h none (List.mem_cons_self _ _)) (by simp)
    | some v =>
      have : (l.filterMap id).length = l.length := ih fun w hw => h w (List.mem_cons_of_mem _ hw)
      simp [List.filterMap_cons, this]

theorem any_isNone_eq_false_of_isSome (xs : List Val)
    (h : ∀ v ∈ xs, v.isSome) : xs.any (·.isNone) = false := by
  rw [List.any_eq_false]
  intro v hv
  have := h v hv
  cases v with
  | none => simp at this
  | some w => simp

/-- `np.quantile` is monotone in `q` on NaN-free nonempty data, so the
2.5 % bound never exceeds the 97.5 % bound. -/
theorem npQuantile_mono (xs : List Val) (q1 q2 : ℚ) (hne : xs ≠ [])
    (hfin : ∀ v ∈ xs, v.isSome) (h0 : 0 ≤ q1) (h12 : q1 ≤ q2) (h1 : q2 ≤ 1) :
    valLe (npQuantile xs q1) (npQuantile xs q2) = true := by
  have hempty : xs.isEmpty = false := by
    cases xs with
    | nil => exact absurd rfl hne
    | cons a l => rfl
  have hany : xs.any (·.isNone) = false := any_isNone_eq_false_of_isSome xs hfin
  have hcond : ¬ (xs.isEmpty = true ∨ xs.any (·.isNone) = true) := by
    rw [hempty, hany]
    simp
  have hq1 : npQuantile xs q1 =
      some (interpolate (sortQ (xs.filterMap id)) (((xs.length : ℚ) - 1) * q1)) := by
    unfold npQuantile
    rw [if_neg hcond]
  have hq2 : npQuantile xs q2 =
      some (interpolate (sortQ (xs.filterMap id)) (((xs.length : ℚ) - 1) * q2)) := by
    unfold npQuantile
    rw [if_neg hcond]
  rw [hq1, hq2]
  unfold valLe
  rw [decide_eq_true_eq]
  have hsorted : List.Sorted (· ≤ ·) (sortQ (xs.filterMap id)) :=
    List.sorted_insertionSort (· ≤ ·) (xs.filterMap id)
  have hslen : (sortQ (xs.filterMap id)).length = xs.length := by
    unfold sortQ
    rw [(List.perm_insertionSort (· ≤ ·) (xs.filterMap id)).length_eq]
    exact filterMap_id_length_of_isSome xs hfin
  have hxs1 : 1 ≤ xs.length := by
    cases xs with
    | nil => exact absurd rfl hne
    | cons a l => simp
  have hlenq : (1 : ℚ) ≤ (xs.length : ℚ) := by exact_mod_cast hxs1
  refine interpolate_mono _ hsorted _ _ ?_ ?_ ?_ ?_
  · nlinarith
  · nlinarith
  · rw [hslen]
    exact hxs1
  · rw [hslen]
    nlinarith

theorem bootMeans_isSome (col : List Val) (draws : List (List ℕ))
    (hcol : ∀ v ∈ col, v.isSome)
    (hdraws : ∀ row ∈ draws, row ≠ [] ∧ ∀ i ∈ row, i < col.length) :
    ∀ v ∈ bootMeans col draws, v.isSome := by
  intro v hv
  rcases List.mem_map.1 hv with ⟨row, hrow, rfl⟩
  obtain ⟨hrne, hridx⟩ := hdraws row hrow
  unfold npMean
  have hempty : (row.map fun i => col.getD i none).isEmpty = false := by
    cases row with
    | nil => exact absurd rfl hrne
    | cons a l => rfl
  have hany : (row.map fun i => col.getD i none).any (·.isNone) = false := by
    refine any_isNone_eq_false_of_isSome _ ?_
    intro w hw
    rcases List.mem_map.1 hw with ⟨i, hi, rfl⟩
    have hilt : i < col.length := hridx i hi
    rw [List.getD_eq_getElem _ _ hilt]
    exact hcol _ (List.getElem_mem hilt)
  rw [if_neg (by rw [hempty, hany]; simp)]
  rfl

theorem bootMeans_length (col : List Val) (draws : List (List ℕ)) :
    (bootMeans col draws).length = draws.length := by
  unfold bootMeans
  rw [List.length_map]

theorem sampleVar_nonneg (l : List ℚ) (h2 : 2 ≤ l.length) : 0 ≤ sampleVar l := by
  unfold sampleVar
  apply div_nonneg
  · refine List.sum_nonneg ?_
    intro x hx
    rcases List.mem_map.1 hx with ⟨y, _, rfl⟩
    positivity
  · have hc : (2 : ℚ) ≤ (l.length : ℚ) := by exact_mod_cast h2
    linarith

/-- C8 (amended): each frequency bin's bootstrap statistics come from that
bin's own `n_boot` resamples of its subject-axis column (the confidence
bounds are the 2.5 %/97.5 % linear-interpolation percentiles of the
bootstrap means, the standard error the ddof-1 standard deviation of the
same list); when the column is NaN-free and the resamples are well-formed
(at least 2, each nonempty with in-range indices), the squared standard
error is a nonnegative finite value — hence `se = √(se²) ≥ 0` — and
`ci_lower ≤ ci_upper`.  The claim's `ci_lower ≤ mean ≤ ci_upper` does not
hold in general (see the counterexample): the sample mean need not lie
between the resample percentiles. -/
theorem C8_bootstrap_ci (meanScores : List (List Val)) (nFreq : ℕ)
    (draws : ℕ → List (List ℕ)) (j : ℕ) (hj : j < nFreq)
    (hcol : ∀ v ∈ column meanScores j, v.isSome)
    (hboot : 2 ≤ (draws j).length)
    (hdraws : ∀ row ∈ draws j, row ≠ [] ∧ ∀ i ∈ row, i < (column meanScores j).length) :
    (compute_conf_inter meanScores nFreq draws).mean_ci_lower.getD j none =
        npQuantile (bootMeans (column meanScores j) (draws j)) (1 / 40) ∧
      (compute_conf_inter meanScores nFreq draws).mean_ci_upper.getD j none =
        npQuantile (bootMeans (column meanScores j) (draws j)) (39 / 40) ∧
      (compute_conf_inter meanScores nFreq draws).mean_se_sq.getD j none =
        npVar1 (bootMeans (column meanScores j) (draws j)) ∧
      (∃ v : ℚ, npVar1 (bootMeans (column meanScores j) (draws j)) = some v ∧ 0 ≤ v ∧
        (meanSe (compute_conf_inter meanScores nFreq draws)).getD j none =
          some (Real.sqrt (v : ℝ)) ∧ 0 ≤ Real.sqrt (v : ℝ)) ∧
      valLe ((compute_conf_inter meanScores nFreq draws).mean_ci_lower.getD j none)
        ((compute_conf_inter meanScores nFreq draws).mean_ci_upper.getD j none) = true := by
  have hbm := bootMeans_isSome (column meanScores j) (draws j) hcol hdraws
  have hbml : (bootMeans (column meanScores j) (draws j)).length = (draws j).length :=
    bootMeans_length _ _
  have hbne : bootMeans (column meanScores j) (draws j) ≠ [] := by
    intro h
    rw [h] at hbml
    simp at hbml
    omega
  have hlow : (compute_conf_inter meanScores nFreq draws).mean_ci_lower.getD j none =
      npQuantile (bootMeans (column meanScores j) (draws j)) (1 / 40) := by
    show (((List.range nFreq).map fun j =>
        npQuantile (bootMeans (column meanScores j) (draws j)) (1 / 40))).getD j none =
      npQuantile (bootMeans (column meanScores j) (draws j)) (1 / 40)
    rw [getD_map_range nFreq _ j hj]
  have hup : (compute_conf_inter meanScores nFreq draws).mean_ci_upper.getD j none =
      npQuantile (bootMeans (column meanScores j) (draws j)) (39 / 40) := by
    show (((List.range nFreq).map fun j =>
        npQuantile (bootMeans (column meanScores j) (draws j)) (39 / 40))).getD j none =
      npQuantile (bootMeans (column meanScores j) (draws j)) (39 / 40)
    rw [getD_map_range nFreq _ j hj]
  have hse : (compute_conf_inter meanScores nFreq draws).mean_se_sq.getD j none =
      npVar1 (bootMeans (column meanScores j) (draws j)) := by
    show (((List.range nFreq).map fun j =>
        npVar1 (bootMeans (column meanScores j) (draws j)))).getD j none =
      npVar1 (bootMeans (column meanScores j) (draws j))
    rw [getD_map_range nFreq _ j hj]
  have hvar : npVar1 (bootMeans (column meanScores j) (draws j)) =
      some (sampleVar ((bootMeans (column meanScores j) (draws j)).filterMap id)) := by
    unfold npVar1
    rw [if_neg ?_]
    rw [hbml]
    push_neg
    refine ⟨by omega, ?_⟩
    rw [any_isNone_eq_false_of_isSome _ hbm]
    simp
  have hvlen : ((bootMeans (column meanScores j) (draws j)).filterMap id).length =
      (draws j).length := by
    rw [filterMap_id_length_of_isSome _ hbm, hbml]
  have hvnn : 0 ≤ sampleVar ((bootMeans (column meanScores j) (draws j)).filterMap id) := by
    refine sampleVar_nonneg _ ?_
    rw [hvlen]
    exact hboot
  refine ⟨hlow, hup, hse, ?_, ?_⟩
  · refine ⟨sampleVar ((bootMeans (column meanScores j) (draws j)).filterMap id),
      hvar, hvnn, ?_, Real.sqrt_nonneg _⟩
    have hstep : (meanSe (compute_conf_inter meanScores nFreq draws)).getD j none =
        (match (compute_conf_inter meanScores nFreq draws).mean_se_sq.getD j none with
          | none => none
          | some q => some (Real.sqrt (Rat.cast q))) :=
      List.getD_map _ (none : Val) _
    rw [hstep, hse, hvar]
  · rw [hlow, hup]
    exact npQuantile_mono _ _ _ hbne hbm (by norm_num) (by norm_num) (by norm_num)

/-- C8 witness: two subjects with scores 0 and 1 in one bin, two resamples
drawing both subjects each: the structural equalities, the nonnegative
squared standard error and `ci_lower ≤ ci_upper` all hold. -/
theorem C8_bootstrap_ci_witness :
    (compute_conf_inter [[some 0], [some 1]] 1 fun _ => [[0, 1], [1, 0]]).mean_ci_lower.getD
          0 none =
        npQuantile (bootMeans (column [[some 0], [some 1]] 0) [[0, 1], [1, 0]]) (1 / 40) ∧
      (compute_conf_inter [[some 0], [some 1]] 1 fun _ => [[0, 1], [1, 0]]).mean_ci_upper.getD
          0 none =
        npQuantile (bootMeans (column [[some 0], [some 1]] 0) [[0, 1], [1, 0]]) (39 / 40) ∧
      (compute_conf_inter [[some 0], [some 1]] 1 fun _ => [[0, 1], [1, 0]]).mean_se_sq.getD
          0 none =
        npVar1 (bootMeans (column [[some 0], [some 1]] 0) [[0, 1], [1, 0]]) ∧
      (∃ v : ℚ, npVar1 (bootMeans (column [[some 0], [some 1]] 0) [[0, 1], [1, 0]]) =
          some v ∧ 0 ≤ v ∧
        (meanSe (compute_conf_inter [[some 0], [some 1]] 1 fun _ => [[0, 1], [1, 0]])).getD
            0 none =
          some (Real.sqrt (v : ℝ)) ∧ 0 ≤ Real.sqrt (v : ℝ)) ∧
      valLe
        ((compute_conf_inter [[some 0], [some 1]] 1 fun _ => [[0, 1], [1, 0]]).mean_ci_lower.getD
          0 none)
        ((compute_conf_inter [[some 0], [some 1]] 1 fun _ => [[0, 1], [1, 0]]).mean_ci_upper.getD
          0 none) = true :=
  C8_bootstrap_ci [[some 0], [some 1]] 1 (fun _ => [[0, 1], [1, 0]]) 0 (by decide)
    (by decide) (by decide) (by decide)

/-- C8 counterexample: two subjects with scores 0 and 1 in one bin; the
resamples happen to draw subject 0 both times (a draw the seeded generator
can produce).  The bootstrap means are then all 0, so
`ci_upper = 0 < mean = 1/2`: `ci_lower ≤ mean ≤ ci_upper` fails. -/
theorem C8_counterexample :
    (compute_conf_inter [[some 0], [some 1]] 1 fun _ => [[0, 0], [0, 0]]).mean.getD 0 none =
        some (1 / 2) ∧
      (compute_conf_inter [[some 0], [some 1]] 1
          fun _ => [[0, 0], [0, 0]]).mean_ci_upper.getD 0 none = some 0 ∧
      valLe (some (1 / 2)) (some 0) = false := by
  refine ⟨?_, ?_, by norm_num [valLe]⟩
  · show ((List.range 1).map fun j =>
        nanmeanCol (column [[some 0], [some 1]] j)).getD 0 none = some (1 / 2)
    rw [getD_map_range 1 _ 0 (by norm_num)]
    norm_num [column, nanmeanCol, List.filterMap_cons]
  · show ((List.range 1).map fun j =>
        npQuantile (bootMeans (column [[some 0], [some 1]] j) [[0, 0], [0, 0]])
          (39 / 40)).getD 0 none = some 0
    rw [getD_map_range 1 _ 0 (by norm_num)]
    norm_num [column, bootMeans, npMean, npQuantile, sortQ, List.insertionSort,
      List.orderedInsert, interpolate, List.filterMap_cons]
    intro h
    exact absurd (h (by simp)) (by simp)

end TimeFreqCsp
